import Mathlib

/-!
# Verification of the aura-base server's approval workflow

A shallow embedding of `src/index.js`: an Express server over a relational
store with tables `users`, `groups`, `events` and `pending` (the review
ballots).  Each HTTP handler is modelled as a pure function from the store
state (plus the request parameters) to a result and an updated state.

Modelling conventions, matching the JavaScript source:
* The store itself is modelled as always accepting reads and writes; the
  errors that remain are exactly the ones the handlers detect themselves
  (`.single()` finding no unique row, a `null` `people_map`, a failed
  membership check).  A supabase `update ... eq` that matches no row is not
  an error and is modelled as the identity on those rows.
* `parseInt` of a non-numeric points value yields `NaN`, which the client
  serialises as `null`; the `aura_points` column is therefore modelled as
  `Option Int`, with `none` standing for that null.  JavaScript's
  `x += null` leaves `x` unchanged, so `none` contributes `0` to sums.
* The approval percentage `(approvedCount / totalMembers) * 100` is an IEEE
  double in JavaScript; it is modelled as a rational.  For any denominator
  `0 < totalMembers < 2^53` the double comparison `percentage >= 50` agrees
  with the exact rational comparison (the gap between `a/b` and `1/2` is at
  least `1/(2b)`, far above the rounding error), so the boolean threshold
  test is faithful; the degenerate `totalMembers = 0` case (`NaN`/`Infinity`
  in JavaScript) is handled separately in `jsGe50`.
* Handlers reject requests with missing parameters before touching the
  store; the model takes the already-validated, typed parameters.
-/

namespace AuraBase

/-- The `group_name` column of `users`: the source tolerates both a single
group name and an array of them (`Array.isArray(nomineeUser.group_name)`). -/
inductive GroupField where
  | single (g : String)
  | multiple (gs : List String)
  deriving DecidableEq, Repr

/-- A row of the `users` table (the columns the server reads). -/
structure User where
  user_id : String
  group_name : GroupField
  name : String
  deriving DecidableEq, Repr

/-- A row of the `groups` table.  `people_map` maps reviewer id to reviewer
display name; `none` models a SQL `NULL` map (the `!groupData.people_map`
check).  Entry order models the JavaScript object key insertion order used
by `Object.entries`. -/
structure Group where
  group_id : String
  people_map : Option (List (String × String))
  deriving DecidableEq, Repr

/-- A row of the `events` table. -/
structure Event where
  event_id : Nat
  name : String
  user_id : String
  aura_points : Option Int
  description : String
  group_name : String
  is_approved : Bool
  deriving DecidableEq, Repr

/-- A row of the `pending` table: one reviewer's ballot on one event. -/
structure Ballot where
  pending_id : Nat
  event_id : Nat
  approved : Bool
  reviewed : Bool
  name_of_nominee : String
  user_id_of_nominee : String
  name_of_reviewer : String
  user_id_of_reviewer : String
  deriving DecidableEq, Repr

/-- The store state.  `nextEventId` and `nextPendingId` model the store's
generated primary keys. -/
structure State where
  users : List User
  groups : List Group
  events : List Event
  pending : List Ballot
  nextEventId : Nat
  nextPendingId : Nat
  deriving DecidableEq, Repr

/-- `Array.isArray(g) ? g : [g]`: a single-valued membership field is
treated as a one-element set. -/
def userGroupsOf : GroupField → List String
  | .single g => [g]
  | .multiple gs => gs

/-- The `pending` update of `/api/review-event`: match on `pending_id` only,
set `approved` to the request's flag and `reviewed` to `true`. -/
def updateBallot (pendingId : Nat) (isApproved : Bool) (b : Ballot) : Ballot :=
  if b.pending_id = pendingId then { b with approved := isApproved, reviewed := true } else b

/-- The `events` update of `/api/review-event`: set `is_approved` on the
rows whose `event_id` matches. -/
def approveEvent (eventId : Nat) (e : Event) : Event :=
  if e.event_id = eventId then { e with is_approved := true } else e

/-- The IEEE-double test `(approvedCount / totalMembers) * 100 >= 50` of the
source.  For a positive denominator below `2^53` this agrees with the exact
rational comparison; for `totalMembers = 0` JavaScript yields `NaN >= 50`
(false) when the count is `0` and `Infinity >= 50` (true) otherwise. -/
def jsGe50 (approvedCount totalMembers : Nat) : Bool :=
  if totalMembers = 0 then decide (approvedCount ≠ 0)
  else decide ((approvedCount : ℚ) / (totalMembers : ℚ) * 100 ≥ 50)

/-- Errors of `/api/review-event` that the model can produce. -/
inductive RevErr where
  /-- `groups ... .single()` found no unique row (HTTP 500). -/
  | groupNotFound
  /-- `Object.keys(null)` threw: `people_map` is null (HTTP 500 via catch). -/
  | peopleMapNull
  deriving DecidableEq, Repr

/-- The success payload of `/api/review-event`. -/
structure RevOut where
  approvalPercentage : ℚ
  wasApproved : Bool
  deriving DecidableEq, Repr

/-- Steps 2-4 of `/api/review-event` (the quorum evaluation, §4.4 of the
spec): re-read the roster, count the approved ballots of `eventId`, compute
the percentage, and set the event approved when it reaches 50%. -/
def evaluateQuorum (s : State) (eventId : Nat) (groupId : String) :
    Except RevErr RevOut × State :=
  match s.groups.filter (fun g => g.group_id == groupId) with
  | [g] =>
    match g.people_map with
    | some pm =>
      let totalGroupMembers := pm.length
      let approvedData := s.pending.filter (fun b => b.event_id == eventId && b.approved)
      let approvedCount := approvedData.length
      let approvalPercentage : ℚ := (approvedCount : ℚ) / (totalGroupMembers : ℚ) * 100
      let wasApproved := jsGe50 approvedCount totalGroupMembers
      let s2 := if wasApproved then
          { s with events := s.events.map (approveEvent eventId) }
        else s
      (.ok ⟨approvalPercentage, wasApproved⟩, s2)
    | none => (.error .peopleMapNull, s)
  | _ => (.error .groupNotFound, s)

/-- Step 1 of `/api/review-event`: the state after the unconditional
`pending` update. -/
def afterBallotUpdate (s : State) (pendingId : Nat) (isApproved : Bool) : State :=
  { s with pending := s.pending.map (updateBallot pendingId isApproved) }

/-- The number of ballots of `eventId` with `approved = true` (step 3 of
`/api/review-event`). -/
def approvedCountFor (s : State) (eventId : Nat) : Nat :=
  (s.pending.filter (fun b => b.event_id == eventId && b.approved)).length

/-- `/api/review-event`: unconditionally update the ballot matching
`pendingId` (step 1), then evaluate the quorum for the *supplied*
`eventId` and `groupId`.  The ballot update persists even when a later
step fails (no rollback). -/
def reviewEvent (s : State) (pendingId eventId : Nat) (isApproved : Bool)
    (groupId : String) : Except RevErr RevOut × State :=
  evaluateQuorum (afterBallotUpdate s pendingId isApproved) eventId groupId

/-- The `debug` payload returned with the membership-mismatch error of
`/api/add-event`: the nominee's actual memberships, the submitted group,
the nominee's name, and per-group comparison details (group, whether it
equals the submitted one, and the two string lengths). -/
structure MismatchDebug where
  userGroups : List String
  submittedGroupName : String
  name : String
  exactMatches : List (String × Bool × Nat × Nat)
  deriving DecidableEq, Repr

/-- Errors of `/api/add-event` that the model can produce. -/
inductive AddErr where
  /-- `users ... .single()` found no unique row (HTTP 400). -/
  | nomineeNotFound
  /-- The nominee's memberships do not contain the submitted group
  (HTTP 400, with the diagnostic payload). -/
  | notAMember (debug : MismatchDebug)
  /-- `groups ... .single()` failed or `people_map` is null (HTTP 500);
  the event row was already inserted and is not rolled back. -/
  | groupOrMapNotFound
  deriving DecidableEq, Repr

/-- Step 4/5 of `/api/add-event`: one ballot per `Object.entries(peopleMap)`
entry, every ballot initialised `approved := false, reviewed := false` and
carrying the entry's reviewer id and name.  `pendingIdStart` models the
store assigning consecutive generated keys to the batch. -/
def mkBallots (pendingIdStart eventId : Nat) (nomineeName nomineeId : String) :
    List (String × String) → List Ballot
  | [] => []
  | (reviewerId, reviewerName) :: rest =>
    { pending_id := pendingIdStart
      event_id := eventId
      approved := false
      reviewed := false
      name_of_nominee := nomineeName
      user_id_of_nominee := nomineeId
      name_of_reviewer := reviewerName
      user_id_of_reviewer := reviewerId } ::
      mkBallots (pendingIdStart + 1) eventId nomineeName nomineeId rest

/-- `/api/add-event` (`submitNomination`): resolve the nominee by display
name, check membership of the submitted group, insert the event (points
already passed through `parseInt`: `none` models `NaN`), read the group's
`people_map`, and insert one ballot per roster entry. -/
def addEvent (s : State) (name : String) (auraPoints : Option Int)
    (description : String) (submittedGroupName : String) :
    Except AddErr Unit × State :=
  match s.users.filter (fun u => u.name == name) with
  | [u] =>
    let userGroups := userGroupsOf u.group_name
    if userGroups.contains submittedGroupName then
      let ev : Event :=
        { event_id := s.nextEventId
          name := name
          user_id := u.user_id
          aura_points := auraPoints
          description := description
          group_name := submittedGroupName
          is_approved := false }
      let s1 := { s with events := s.events ++ [ev], nextEventId := s.nextEventId + 1 }
      match s1.groups.filter (fun g => g.group_id == submittedGroupName) with
      | [g] =>
        match g.people_map with
        | some pm =>
          let inserts := mkBallots s1.nextPendingId ev.event_id name u.user_id pm
          (.ok (), { s1 with pending := s1.pending ++ inserts,
                             nextPendingId := s1.nextPendingId + pm.length })
        | none => (.error .groupOrMapNotFound, s1)
      | _ => (.error .groupOrMapNotFound, s1)
    else
      (.error (.notAMember
        { userGroups := userGroups
          submittedGroupName := submittedGroupName
          name := u.name
          exactMatches := userGroups.map (fun g =>
            (g, decide (g = submittedGroupName), submittedGroupName.length, g.length)) }), s)
  | _ => (.error .nomineeNotFound, s)

/-- The approved events of a group, as fetched by `/api/dashboard-results`. -/
def approvedEventsOf (s : State) (group_id : String) : List Event :=
  s.events.filter (fun e => e.group_name == group_id && e.is_approved)

/-- The sum of the points of the events of `l` naming `n` (a null points
value contributes `0`, as in JavaScript). -/
def totalFor (l : List Event) (n : String) : Int :=
  (l.filter (fun e => e.name == n)).foldl (fun t e => t + e.aura_points.getD 0) 0

/-- Lookup in a per-name totals list (first entry with the given key). -/
def lk (xs : List (String × Int)) (n : String) : Option Int :=
  (xs.find? (fun p => p.1 == n)).map (·.2)

/-- The `userTotals` accumulation of `/api/dashboard-results`: a JavaScript
object keyed by nominee name, keys in first-insertion order; `+= null`
leaves the total unchanged, so a null points value contributes `0`. -/
def addTotal (acc : List (String × Int)) (name : String) (pts : Option Int) :
    List (String × Int) :=
  match acc with
  | [] => [(name, 0 + pts.getD 0)]
  | (n, t) :: rest =>
    if n = name then (n, t + pts.getD 0) :: rest else (n, t) :: addTotal rest name pts

/-- Fold the approved events of the group into per-name totals. -/
def accumTotals (data : List Event) : List (String × Int) :=
  data.foldl (fun acc e => addTotal acc e.name e.aura_points) []

/-- The comparator `(a, b) => b.total_aura_points - a.total_aura_points`
keeps `a` before `b` exactly when `b.2 ≤ a.2`; JavaScript's sort is stable,
so the sort is the stable insertion sort with this relation. -/
def lbRel (a b : String × Int) : Prop := b.2 ≤ a.2

instance : DecidableRel lbRel := fun a b => inferInstanceAs (Decidable (b.2 ≤ a.2))

instance : IsTotal (String × Int) lbRel := ⟨fun a b => le_total b.2 a.2⟩

instance : IsTrans (String × Int) lbRel := ⟨fun _ _ _ hab hbc => le_trans hbc hab⟩

/-- `/api/dashboard-results`: select the approved events of the group, sum
`aura_points` by name, sort descending by total (stable) and keep the top
5.  The handler performs no store writes, so the state is returned
unchanged. -/
def dashboardResults (s : State) (group_id : String) :
    List (String × Int) × State :=
  let data := approvedEventsOf s group_id
  let userTotals := accumTotals data
  ((List.insertionSort lbRel userTotals).take 5, s)

/-- Errors of `/api/pending-reviews`; the store errors of the source are
not modelled (store reads succeed), so the model never produces one. -/
inductive PRErr where
  | storeError
  deriving DecidableEq, Repr

/-- `/api/pending-reviews` (`listPendingBallotsForReviewer`): fetch the
reviewer's unreviewed ballots, fetch the referenced events restricted to
the group, and join, silently dropping a ballot whose event is not found. -/
def pendingReviews (s : State) (group_id user_id : String) :
    Except PRErr (List (Ballot × Event)) :=
  let pendingData := s.pending.filter
    (fun b => b.user_id_of_reviewer == user_id && !b.reviewed)
  if pendingData.isEmpty then .ok []
  else
    let eventIds := pendingData.map (·.event_id)
    let eventsData := s.events.filter
      (fun e => eventIds.contains e.event_id && e.group_name == group_id)
    .ok (pendingData.filterMap (fun p =>
      (eventsData.find? (fun e => e.event_id == p.event_id)).map (fun e => (p, e))))

/-- A validated `/api/review-event` request body. -/
structure ReviewReq where
  pendingId : Nat
  eventId : Nat
  isApproved : Bool
  groupId : String
  deriving DecidableEq, Repr

/-- Apply a sequence of review-event operations to the store. -/
def applyReviews (s : State) (reqs : List ReviewReq) : State :=
  reqs.foldl (fun st r => (reviewEvent st r.pendingId r.eventId r.isApproved r.groupId).snd) s

/-- Pointwise monotonicity of the events table: same rows in the same
order, and a row that was approved is still approved. -/
def eventsMono (l l2 : List Event) : Prop :=
  List.Forall₂ (fun e e2 => e.is_approved = true → e2.is_approved = true) l l2

/-! ## Concrete fixtures

A small store used to exercise the handlers on concrete inputs: one group
`"g1"` whose roster has the two reviewers `u1` and `u2`, the member
`alice`, two pending events `1` and `2` of that group, an unreviewed ballot
`10` of event `2` held by `u1`, and an already-cast approving ballot `11`
of event `1` held by `u2`. -/

def pmDemo : List (String × String) := [("u1", "Uma"), ("u2", "Vik")]

def gDemo : Group := { group_id := "g1", people_map := some pmDemo }

def aliceDemo : User := { user_id := "ua", group_name := .single "g1", name := "alice" }

def ev1Demo : Event :=
  { event_id := 1, name := "alice", user_id := "ua", aura_points := some 7,
    description := "helped", group_name := "g1", is_approved := false }

def ev2Demo : Event :=
  { event_id := 2, name := "alice", user_id := "ua", aura_points := some 3,
    description := "organised", group_name := "g1", is_approved := false }

def b10Demo : Ballot :=
  { pending_id := 10, event_id := 2, approved := false, reviewed := false,
    name_of_nominee := "alice", user_id_of_nominee := "ua",
    name_of_reviewer := "Uma", user_id_of_reviewer := "u1" }

def b11Demo : Ballot :=
  { pending_id := 11, event_id := 1, approved := true, reviewed := true,
    name_of_nominee := "alice", user_id_of_nominee := "ua",
    name_of_reviewer := "Vik", user_id_of_reviewer := "u2" }

def sDemo : State :=
  { users := [aliceDemo], groups := [gDemo], events := [ev1Demo, ev2Demo],
    pending := [b10Demo, b11Demo], nextEventId := 3, nextPendingId := 12 }

/-- A fresh store with no events or ballots yet, for the intake scenarios. -/
def sIntake : State :=
  { users := [aliceDemo], groups := [gDemo], events := [], pending := [],
    nextEventId := 1, nextPendingId := 1 }

/-! ## Helper lemmas on `/api/review-event` -/

theorem evaluateQuorum_snd_pending (s : State) (eid : Nat) (gid : String) :
    (evaluateQuorum s eid gid).snd.pending = s.pending := by
  unfold evaluateQuorum
  split
  · split
    · dsimp only
      split <;> rfl
    · rfl
  · rfl

theorem evaluateQuorum_snd_groups (s : State) (eid : Nat) (gid : String) :
    (evaluateQuorum s eid gid).snd.groups = s.groups := by
  unfold evaluateQuorum
  split
  · split
    · dsimp only
      split <;> rfl
    · rfl
  · rfl

theorem evaluateQuorum_snd_events (s : State) (eid : Nat) (gid : String) :
    (evaluateQuorum s eid gid).snd.events = s.events ∨
      (evaluateQuorum s eid gid).snd.events = s.events.map (approveEvent eid) := by
  unfold evaluateQuorum
  split
  · split
    · dsimp only
      split
      · exact Or.inr rfl
      · exact Or.inl rfl
    · exact Or.inl rfl
  · exact Or.inl rfl

theorem reviewEvent_snd_pending (s : State) (pid eid : Nat) (app : Bool) (gid : String) :
    (reviewEvent s pid eid app gid).snd.pending = s.pending.map (updateBallot pid app) := by
  have h := evaluateQuorum_snd_pending (afterBallotUpdate s pid app) eid gid
  simpa [reviewEvent, afterBallotUpdate] using h

/-- Evaluation of the quorum when the group read succeeds and the
`people_map` is present. -/
theorem evaluateQuorum_spec (s : State) (eid : Nat) (gid : String) (g : Group)
    (pm : List (String × String))
    (hg : s.groups.filter (fun x => x.group_id == gid) = [g])
    (hpm : g.people_map = some pm) :
    evaluateQuorum s eid gid =
      (.ok { approvalPercentage := (approvedCountFor s eid : ℚ) / (pm.length : ℚ) * 100,
             wasApproved := jsGe50 (approvedCountFor s eid) pm.length },
       if jsGe50 (approvedCountFor s eid) pm.length then
         { s with events := s.events.map (approveEvent eid) }
       else s) := by
  unfold evaluateQuorum
  rw [hg]
  dsimp only
  rw [hpm]
  rfl

theorem jsGe50_pos (a t : Nat) (ht : 0 < t) :
    jsGe50 a t = decide ((a : ℚ) / (t : ℚ) * 100 ≥ 50) := by
  unfold jsGe50
  rw [if_neg (Nat.pos_iff_ne_zero.mp ht)]

theorem map_updateBallot_of_absent (l : List Ballot) (pid : Nat) (app : Bool)
    (h : ∀ b ∈ l, b.pending_id ≠ pid) : l.map (updateBallot pid app) = l := by
  induction l with
  | nil => rfl
  | cons b rest ih =>
    have hb : updateBallot pid app b = b := by
      unfold updateBallot
      rw [if_neg (h b (List.mem_cons_self b rest))]
    simp only [List.map_cons, hb, ih (fun x hx => h x (List.mem_cons_of_mem b hx))]

/-! ## Claim C10 -/

/-- C10: a review-event request updates the ballot named by `pendingId`
with no check that it belongs to the supplied `eventId` or `groupId`, and
the quorum is then evaluated for the supplied `eventId` against the
supplied `groupId`'s roster.  Concretely, on `sDemo`, the decision sent
with `pendingId = 10` (a ballot of event `2`) and `eventId = 1` marks the
event-`2` ballot approved and transitions event `1` — not event `2` — to
approved. -/
theorem review_event_ballot_event_mismatch :
    (∀ (s : State) (pendingId eventId : Nat) (isApproved : Bool) (groupId : String),
      (reviewEvent s pendingId eventId isApproved groupId).snd.pending =
        s.pending.map (updateBallot pendingId isApproved)) ∧
    (reviewEvent sDemo 10 1 true "g1").snd.pending.map
        (fun b => (b.pending_id, b.event_id, b.reviewed, b.approved)) =
      [(10, 2, true, true), (11, 1, true, true)] ∧
    (reviewEvent sDemo 10 1 true "g1").snd.events.map
        (fun e => (e.event_id, e.is_approved)) =
      [(1, true), (2, false)] := by
  refine ⟨reviewEvent_snd_pending, ?_, ?_⟩ <;>
    norm_num [reviewEvent, evaluateQuorum, afterBallotUpdate, updateBallot, approveEvent,
      sDemo, b10Demo, b11Demo, gDemo, pmDemo, ev1Demo, ev2Demo, jsGe50]

/-! ## Claim C5 -/

/-- C5 (counterexample): `sDemo` has no ballot with id `99`, yet the
review-event request for that ballot id returns success (with a quorum
evaluation of the supplied event) and updates no ballot — there is no
ballot-not-found error. -/
theorem unknown_ballot_counterexample :
    sDemo.pending.all (fun b => b.pending_id != 99) = true ∧
    (reviewEvent sDemo 99 2 true "g1").fst =
      Except.ok { approvalPercentage := 0, wasApproved := false } ∧
    (reviewEvent sDemo 99 2 true "g1").snd.pending = sDemo.pending := by
  refine ⟨by decide, ?_, ?_⟩ <;>
    norm_num [reviewEvent, evaluateQuorum, afterBallotUpdate, updateBallot,
      sDemo, b10Demo, b11Demo, gDemo, pmDemo, jsGe50]

/-- C5 (amended): when the supplied ballot id matches no ballot, the
supabase update matches no row and raises no error; the request proceeds
to the quorum evaluation and succeeds, with every ballot unchanged. -/
theorem unknown_ballot_silent_success (s : State) (pid eid : Nat) (app : Bool)
    (gid : String) (g : Group) (pm : List (String × String))
    (habs : ∀ b ∈ s.pending, b.pending_id ≠ pid)
    (hg : s.groups.filter (fun x => x.group_id == gid) = [g])
    (hpm : g.people_map = some pm) :
    (∃ o, (reviewEvent s pid eid app gid).fst = Except.ok o) ∧
    (reviewEvent s pid eid app gid).snd.pending = s.pending := by
  have hg1 : (afterBallotUpdate s pid app).groups.filter (fun x => x.group_id == gid) = [g] := hg
  have hspec := evaluateQuorum_spec (afterBallotUpdate s pid app) eid gid g pm hg1 hpm
  constructor
  · exact ⟨_, by rw [reviewEvent, hspec]⟩
  · rw [reviewEvent_snd_pending, map_updateBallot_of_absent s.pending pid app habs]

theorem unknown_ballot_silent_success_witness :
    (∃ o, (reviewEvent sDemo 99 2 true "g1").fst = Except.ok o) ∧
    (reviewEvent sDemo 99 2 true "g1").snd.pending = sDemo.pending :=
  unknown_ballot_silent_success sDemo 99 2 true "g1" gDemo pmDemo
    (by decide) (by decide) (by decide)

/-! ## Claim C6 -/

/-- C6 (counterexample): ballot `11` of `sDemo` already has
`reviewed = true, approved = true`; a second review-event decision on it
with `isApproved = false` is applied and overwrites the stored verdict to
`approved = false`. -/
theorem reviewed_ballot_overwrite_counterexample :
    (sDemo.pending.filter (fun b => b.pending_id == 11)).map
        (fun b => (b.reviewed, b.approved)) = [(true, true)] ∧
    ((reviewEvent sDemo 11 1 false "g1").snd.pending.filter
        (fun b => b.pending_id == 11)).map
        (fun b => (b.reviewed, b.approved)) = [(true, false)] := by
  refine ⟨by decide, ?_⟩
  norm_num [reviewEvent, evaluateQuorum, afterBallotUpdate, updateBallot,
    sDemo, b10Demo, b11Demo, gDemo, pmDemo, jsGe50]

/-- C6 (amended): the review-event ballot update is unconditional — a
second decision on an already-reviewed ballot is applied, overwriting the
stored `approved` value with the new one. -/
theorem reviewed_ballot_overwritten (s : State) (pid eid : Nat) (app : Bool)
    (gid : String) (b : Ballot) (hb : b ∈ s.pending) (hrev : b.reviewed = true)
    (hpid : b.pending_id = pid) :
    (reviewEvent s pid eid app gid).snd.pending = s.pending.map (updateBallot pid app) ∧
    updateBallot pid app b = { b with approved := app, reviewed := true } := by
  refine ⟨reviewEvent_snd_pending s pid eid app gid, ?_⟩
  unfold updateBallot
  rw [if_pos hpid]

theorem reviewed_ballot_overwritten_witness :
    (reviewEvent sDemo 11 1 false "g1").snd.pending =
      sDemo.pending.map (updateBallot 11 false) ∧
    updateBallot 11 false b11Demo = { b11Demo with approved := false, reviewed := true } :=
  reviewed_ballot_overwritten sDemo 11 1 false "g1" b11Demo
    (by decide) (by decide) (by decide)

/-! ## Claim C1 -/

/-- The quorum evaluation reads the ballot count and the roster but writes
only event statuses, so evaluating a second time with no intervening
decisions reproduces the same result. -/
theorem evaluateQuorum_idem_fst (s : State) (eid : Nat) (gid : String) (g : Group)
    (pm : List (String × String))
    (hg : s.groups.filter (fun x => x.group_id == gid) = [g])
    (hpm : g.people_map = some pm) :
    (evaluateQuorum (evaluateQuorum s eid gid).snd eid gid).fst =
      (evaluateQuorum s eid gid).fst := by
  have hg2 : (evaluateQuorum s eid gid).snd.groups.filter (fun x => x.group_id == gid) = [g] := by
    rw [evaluateQuorum_snd_groups]; exact hg
  have hcnt : approvedCountFor (evaluateQuorum s eid gid).snd eid = approvedCountFor s eid := by
    unfold approvedCountFor
    rw [evaluateQuorum_snd_pending]
  rw [evaluateQuorum_spec (evaluateQuorum s eid gid).snd eid gid g pm hg2 hpm]
  dsimp only
  rw [hcnt, evaluateQuorum_spec s eid gid g pm hg hpm]

/-- C1: for a review-event request whose group read succeeds (non-empty
roster), the reported `approvalPercentage` is the number of approved
ballots of the supplied `eventId` (after the request's own ballot write),
divided by the size of the supplied group's roster as re-read at
evaluation time, times 100; the event is written approved exactly when the
percentage reaches 50; `wasApproved` equals `percentage ≥ 50` for the
current evaluation regardless of the event's prior status; and a second
evaluation with no intervening decisions yields the same percentage. -/
theorem review_event_percentage_correct (s : State) (pid eid : Nat) (app : Bool)
    (gid : String) (g : Group) (pm : List (String × String))
    (hg : s.groups.filter (fun x => x.group_id == gid) = [g])
    (hpm : g.people_map = some pm) (hpos : 0 < pm.length) :
    (reviewEvent s pid eid app gid).fst =
      Except.ok
        { approvalPercentage :=
            (approvedCountFor (afterBallotUpdate s pid app) eid : ℚ) / (pm.length : ℚ) * 100,
          wasApproved :=
            decide ((approvedCountFor (afterBallotUpdate s pid app) eid : ℚ) /
              (pm.length : ℚ) * 100 ≥ 50) } ∧
    (reviewEvent s pid eid app gid).snd.events =
      (if (approvedCountFor (afterBallotUpdate s pid app) eid : ℚ) / (pm.length : ℚ) * 100 ≥ 50
       then s.events.map (approveEvent eid) else s.events) ∧
    (evaluateQuorum (evaluateQuorum (afterBallotUpdate s pid app) eid gid).snd eid gid).fst =
      (evaluateQuorum (afterBallotUpdate s pid app) eid gid).fst := by
  have hg1 : (afterBallotUpdate s pid app).groups.filter (fun x => x.group_id == gid) = [g] := hg
  have hspec := evaluateQuorum_spec (afterBallotUpdate s pid app) eid gid g pm hg1 hpm
  refine ⟨?_, ?_, evaluateQuorum_idem_fst (afterBallotUpdate s pid app) eid gid g pm hg1 hpm⟩
  · rw [reviewEvent, hspec, jsGe50_pos _ _ hpos]
  · rw [reviewEvent, hspec, jsGe50_pos _ _ hpos]
    by_cases hc :
        (approvedCountFor (afterBallotUpdate s pid app) eid : ℚ) / (pm.length : ℚ) * 100 ≥ 50
    · rw [if_pos (decide_eq_true hc), if_pos hc]
      rfl
    · have hb : ¬(decide ((approvedCountFor (afterBallotUpdate s pid app) eid : ℚ) /
          (pm.length : ℚ) * 100 ≥ 50) = true) := by simpa using hc
      rw [if_neg hb, if_neg hc]
      rfl

theorem review_event_percentage_witness :
    (reviewEvent sDemo 10 1 true "g1").fst =
      Except.ok
        { approvalPercentage :=
            (approvedCountFor (afterBallotUpdate sDemo 10 true) 1 : ℚ) / (pmDemo.length : ℚ) * 100,
          wasApproved :=
            decide ((approvedCountFor (afterBallotUpdate sDemo 10 true) 1 : ℚ) /
              (pmDemo.length : ℚ) * 100 ≥ 50) } ∧
    (reviewEvent sDemo 10 1 true "g1").snd.events =
      (if (approvedCountFor (afterBallotUpdate sDemo 10 true) 1 : ℚ) / (pmDemo.length : ℚ) * 100 ≥ 50
       then sDemo.events.map (approveEvent 1) else sDemo.events) ∧
    (evaluateQuorum (evaluateQuorum (afterBallotUpdate sDemo 10 true) 1 "g1").snd 1 "g1").fst =
      (evaluateQuorum (afterBallotUpdate sDemo 10 true) 1 "g1").fst :=
  review_event_percentage_correct sDemo 10 1 true "g1" gDemo pmDemo
    (by decide) (by decide) (by decide)

/-! ## Claim C2 -/

theorem eventsMono_refl (l : List Event) : eventsMono l l :=
  List.forall₂_same.mpr (fun _ _ h => h)

theorem eventsMono_trans {a b c : List Event} (h1 : eventsMono a b) (h2 : eventsMono b c) :
    eventsMono a c := by
  induction h1 generalizing c with
  | nil => cases h2; exact .nil
  | cons hab _ ih =>
    cases h2 with
    | cons hbc h2r => exact .cons (fun h => hbc (hab h)) (ih h2r)

theorem eventsMono_map (l : List Event) (f : Event → Event)
    (hf : ∀ e, e.is_approved = true → (f e).is_approved = true) :
    eventsMono l (l.map f) := by
  induction l with
  | nil => exact .nil
  | cons e rest ih => exact .cons (hf e) ih

theorem approveEvent_mono (eid : Nat) (e : Event) :
    e.is_approved = true → (approveEvent eid e).is_approved = true := by
  intro h
  unfold approveEvent
  split
  · rfl
  · exact h

theorem evaluateQuorum_events_mono (s : State) (eid : Nat) (gid : String) :
    eventsMono s.events (evaluateQuorum s eid gid).snd.events := by
  rcases evaluateQuorum_snd_events s eid gid with h | h <;> rw [h]
  · exact eventsMono_refl _
  · exact eventsMono_map _ _ (approveEvent_mono eid)

theorem reviewEvent_events_mono (s : State) (pid eid : Nat) (app : Bool) (gid : String) :
    eventsMono s.events (reviewEvent s pid eid app gid).snd.events :=
  evaluateQuorum_events_mono (afterBallotUpdate s pid app) eid gid

theorem applyReviews_mono (reqs : List ReviewReq) (s : State) :
    eventsMono s.events (applyReviews s reqs).events := by
  induction reqs generalizing s with
  | nil => exact eventsMono_refl s.events
  | cons r rest ih =>
    have h1 := reviewEvent_events_mono s r.pendingId r.eventId r.isApproved r.groupId
    have h2 := ih (reviewEvent s r.pendingId r.eventId r.isApproved r.groupId).snd
    exact eventsMono_trans h1 h2

/-- C2: event approval is monotonic — across any sequence of review-event
operations the events table keeps its rows and an approved row never
reverts to pending (the only status write is `is_approved := true`); and
re-running the quorum evaluation (for a group whose read succeeds) returns
success and keeps every approved event approved, in particular an
already-approved event with no new decisions is left unchanged. -/
theorem event_approval_monotone (s : State) (reqs : List ReviewReq) (eid : Nat)
    (gid : String) (g : Group) (pm : List (String × String))
    (hg : s.groups.filter (fun x => x.group_id == gid) = [g])
    (hpm : g.people_map = some pm) :
    eventsMono s.events (applyReviews s reqs).events ∧
    (∃ o, (evaluateQuorum s eid gid).fst = Except.ok o) ∧
    eventsMono s.events (evaluateQuorum s eid gid).snd.events := by
  refine ⟨applyReviews_mono reqs s, ?_, evaluateQuorum_events_mono s eid gid⟩
  exact ⟨_, by rw [evaluateQuorum_spec s eid gid g pm hg hpm]⟩

theorem event_approval_monotone_witness :
    eventsMono sDemo.events (applyReviews sDemo [⟨10, 1, true, "g1"⟩]).events ∧
    (∃ o, (evaluateQuorum sDemo 1 "g1").fst = Except.ok o) ∧
    eventsMono sDemo.events (evaluateQuorum sDemo 1 "g1").snd.events :=
  event_approval_monotone sDemo [⟨10, 1, true, "g1"⟩] 1 "g1" gDemo pmDemo
    (by decide) (by decide)

/-! ## Helper lemmas on `/api/add-event` -/

/-- A successful nomination appends one event row and one ballot batch. -/
theorem addEvent_ok_spec (s : State) (name : String) (pts : Option Int)
    (desc gid : String) (u : User) (g : Group) (pm : List (String × String))
    (hu : s.users.filter (fun x => x.name == name) = [u])
    (hmem : (userGroupsOf u.group_name).contains gid = true)
    (hg : s.groups.filter (fun x => x.group_id == gid) = [g])
    (hpm : g.people_map = some pm) :
    addEvent s name pts desc gid =
      (.ok (),
       { users := s.users, groups := s.groups,
         events := s.events ++
           [{ event_id := s.nextEventId, name := name, user_id := u.user_id,
              aura_points := pts, description := desc, group_name := gid,
              is_approved := false }],
         pending := s.pending ++ mkBallots s.nextPendingId s.nextEventId name u.user_id pm,
         nextEventId := s.nextEventId + 1,
         nextPendingId := s.nextPendingId + pm.length }) := by
  unfold addEvent
  rw [hu]
  dsimp only
  rw [if_pos hmem]
  rw [hg]
  dsimp only
  rw [hpm]

theorem mkBallots_length (start eid : Nat) (nom nid : String)
    (pm : List (String × String)) :
    (mkBallots start eid nom nid pm).length = pm.length := by
  induction pm generalizing start with
  | nil => rfl
  | cons rv rest ih => simp [mkBallots, ih]

theorem mkBallots_event_id (start eid : Nat) (nom nid : String)
    (pm : List (String × String)) :
    ∀ b ∈ mkBallots start eid nom nid pm, b.event_id = eid := by
  induction pm generalizing start with
  | nil => intro b hb; cases hb
  | cons rv rest ih =>
    intro b hb
    rcases List.mem_cons.mp hb with h | h
    · rw [h]
    · exact ih (start + 1) b h

theorem mkBallots_getElem (start eid : Nat) (nom nid : String)
    (pm : List (String × String)) (i : Nat) :
    (mkBallots start eid nom nid pm)[i]? =
      (pm[i]?).map (fun rv =>
        { pending_id := start + i, event_id := eid, approved := false,
          reviewed := false, name_of_nominee := nom, user_id_of_nominee := nid,
          name_of_reviewer := rv.2, user_id_of_reviewer := rv.1 }) := by
  induction pm generalizing start i with
  | nil => simp [mkBallots]
  | cons rv rest ih =>
    cases i with
    | zero => simp [mkBallots]
    | succ j =>
      simp only [mkBallots, List.getElem?_cons_succ, ih (start + 1) j]
      have : start + 1 + j = start + (j + 1) := by omega
      rw [this]

/-! ## Claim C3 -/

/-- C3: a nomination that completes successfully creates exactly one
ballot per roster entry of the group, referencing the new event, with no
duplicates and no omissions: the new event's ballots are precisely the
generated batch, whose length is the roster size and whose `i`-th entry is
unreviewed, unapproved, and carries the `i`-th roster entry's reviewer id
and name. -/
theorem nomination_fanout_ballots (s : State) (name : String) (pts : Option Int)
    (desc gid : String) (u : User) (g : Group) (pm : List (String × String))
    (hu : s.users.filter (fun x => x.name == name) = [u])
    (hmem : (userGroupsOf u.group_name).contains gid = true)
    (hg : s.groups.filter (fun x => x.group_id == gid) = [g])
    (hpm : g.people_map = some pm)
    (hfresh : ∀ b ∈ s.pending, b.event_id ≠ s.nextEventId) :
    (addEvent s name pts desc gid).fst = .ok () ∧
    (addEvent s name pts desc gid).snd.pending.filter
        (fun b => b.event_id == s.nextEventId) =
      mkBallots s.nextPendingId s.nextEventId name u.user_id pm ∧
    ((addEvent s name pts desc gid).snd.pending.filter
        (fun b => b.event_id == s.nextEventId)).length = pm.length ∧
    (∀ i : Nat, (mkBallots s.nextPendingId s.nextEventId name u.user_id pm)[i]? =
      (pm[i]?).map (fun rv =>
        { pending_id := s.nextPendingId + i, event_id := s.nextEventId,
          approved := false, reviewed := false, name_of_nominee := name,
          user_id_of_nominee := u.user_id, name_of_reviewer := rv.2,
          user_id_of_reviewer := rv.1 })) := by
  have hspec := addEvent_ok_spec s name pts desc gid u g pm hu hmem hg hpm
  have hfilter : (addEvent s name pts desc gid).snd.pending.filter
      (fun b => b.event_id == s.nextEventId) =
      mkBallots s.nextPendingId s.nextEventId name u.user_id pm := by
    rw [hspec]
    dsimp only
    rw [List.filter_append]
    have h1 : s.pending.filter (fun b => b.event_id == s.nextEventId) = [] := by
      rw [List.filter_eq_nil_iff]
      intro b hb
      simpa using hfresh b hb
    have h2 : (mkBallots s.nextPendingId s.nextEventId name u.user_id pm).filter
        (fun b => b.event_id == s.nextEventId) =
        mkBallots s.nextPendingId s.nextEventId name u.user_id pm := by
      rw [List.filter_eq_self]
      intro b hb
      simpa using mkBallots_event_id s.nextPendingId s.nextEventId name u.user_id pm b hb
    rw [h1, h2, List.nil_append]
  refine ⟨by rw [hspec], hfilter, ?_, ?_⟩
  · rw [hfilter, mkBallots_length]
  · exact mkBallots_getElem s.nextPendingId s.nextEventId name u.user_id pm

theorem nomination_fanout_ballots_witness :
    (addEvent sIntake "alice" (some 4) "helped" "g1").fst = .ok () ∧
    (addEvent sIntake "alice" (some 4) "helped" "g1").snd.pending.filter
        (fun b => b.event_id == sIntake.nextEventId) =
      mkBallots sIntake.nextPendingId sIntake.nextEventId "alice" aliceDemo.user_id pmDemo ∧
    ((addEvent sIntake "alice" (some 4) "helped" "g1").snd.pending.filter
        (fun b => b.event_id == sIntake.nextEventId)).length = pmDemo.length ∧
    (∀ i : Nat,
      (mkBallots sIntake.nextPendingId sIntake.nextEventId "alice" aliceDemo.user_id pmDemo)[i]? =
      (pmDemo[i]?).map (fun rv =>
        { pending_id := sIntake.nextPendingId + i, event_id := sIntake.nextEventId,
          approved := false, reviewed := false, name_of_nominee := "alice",
          user_id_of_nominee := aliceDemo.user_id, name_of_reviewer := rv.2,
          user_id_of_reviewer := rv.1 })) :=
  nomination_fanout_ballots sIntake "alice" (some 4) "helped" "g1" aliceDemo gDemo pmDemo
    (by decide) (by decide) (by decide) (by decide) (by decide)

/-! ## Claim C4 -/

/-- C4: a nomination whose nominee's memberships (a single-valued field is
treated as a one-element set) do not contain the submitted group is
rejected with the not-a-member error carrying the diagnostic payload
(actual memberships versus submitted group), and the store state is
returned unchanged — in particular no event row is created. -/
theorem nomination_rejects_nonmember (s : State) (name : String) (pts : Option Int)
    (desc gid : String) (u : User)
    (hu : s.users.filter (fun x => x.name == name) = [u])
    (hmem : (userGroupsOf u.group_name).contains gid = false) :
    addEvent s name pts desc gid =
      (.error (.notAMember
        { userGroups := userGroupsOf u.group_name
          submittedGroupName := gid
          name := u.name
          exactMatches := (userGroupsOf u.group_name).map (fun g2 =>
            (g2, decide (g2 = gid), gid.length, g2.length)) }), s) := by
  unfold addEvent
  rw [hu]
  dsimp only
  rw [hmem]
  rfl

theorem nomination_rejects_nonmember_witness :
    addEvent sIntake "alice" (some 4) "helped" "g2" =
      (.error (.notAMember
        { userGroups := userGroupsOf aliceDemo.group_name
          submittedGroupName := "g2"
          name := aliceDemo.name
          exactMatches := (userGroupsOf aliceDemo.group_name).map (fun g2 =>
            (g2, decide (g2 = "g2"), "g2".length, g2.length)) }), sIntake) :=
  nomination_rejects_nonmember sIntake "alice" (some 4) "helped" "g2" aliceDemo
    (by decide) (by decide)

/-! ## Claim C8 -/

/-- C8 (counterexample): submitting a nomination whose points value is not
numeric (`parseInt` yields `NaN`, stored as null, modelled `none`) does
*not* fail — the request succeeds and the event row is created with the
null points value; no `InvalidPoints` error exists in the code. -/
theorem invalid_points_counterexample :
    (addEvent sIntake "alice" none "helped" "g1").fst = .ok () ∧
    (addEvent sIntake "alice" none "helped" "g1").snd.events.map
        (fun e => (e.name, e.aura_points)) = [("alice", (none : Option Int))] :=
  ⟨rfl, by decide⟩

/-- C8 (amended): `submitNomination` coerces the points with `parseInt`
and stores the result without any numeric validation: whatever the parse
produced — including the `NaN`/null of a non-numeric input — the request
succeeds and the event row is created carrying exactly that value. -/
theorem points_not_validated (s : State) (name : String) (pts : Option Int)
    (desc gid : String) (u : User) (g : Group) (pm : List (String × String))
    (hu : s.users.filter (fun x => x.name == name) = [u])
    (hmem : (userGroupsOf u.group_name).contains gid = true)
    (hg : s.groups.filter (fun x => x.group_id == gid) = [g])
    (hpm : g.people_map = some pm) :
    (addEvent s name pts desc gid).fst = .ok () ∧
    (addEvent s name pts desc gid).snd.events =
      s.events ++
        [{ event_id := s.nextEventId, name := name, user_id := u.user_id,
           aura_points := pts, description := desc, group_name := gid,
           is_approved := false }] := by
  have hspec := addEvent_ok_spec s name pts desc gid u g pm hu hmem hg hpm
  exact ⟨by rw [hspec], by rw [hspec]⟩

theorem points_not_validated_witness :
    (addEvent sIntake "alice" none "helped" "g1").fst = .ok () ∧
    (addEvent sIntake "alice" none "helped" "g1").snd.events =
      sIntake.events ++
        [{ event_id := sIntake.nextEventId, name := "alice", user_id := aliceDemo.user_id,
           aura_points := none, description := "helped", group_name := "g1",
           is_approved := false }] :=
  points_not_validated sIntake "alice" none "helped" "g1" aliceDemo gDemo pmDemo
    (by decide) (by decide) (by decide) (by decide)

/-! ## Claim C9 -/

/-- The early return of `/api/pending-reviews` when the reviewer has no
unreviewed ballots. -/
theorem pendingReviews_of_no_pending (s : State) (gid uid : String)
    (h : s.pending.filter (fun b => b.user_id_of_reviewer == uid && !b.reviewed) = []) :
    pendingReviews s gid uid = .ok [] := by
  unfold pendingReviews
  rw [h]
  rfl

/-- The join performed by `/api/pending-reviews` when the reviewer has at
least one unreviewed ballot. -/
theorem pendingReviews_of_pending (s : State) (gid uid : String)
    (h : s.pending.filter (fun b => b.user_id_of_reviewer == uid && !b.reviewed) ≠ []) :
    pendingReviews s gid uid = .ok
      ((s.pending.filter (fun b => b.user_id_of_reviewer == uid && !b.reviewed)).filterMap
        (fun p =>
          ((s.events.filter (fun e =>
              ((s.pending.filter (fun b => b.user_id_of_reviewer == uid && !b.reviewed)).map
                  (fun x => x.event_id)).contains e.event_id && e.group_name == gid)).find?
            (fun e => e.event_id == p.event_id)).map (fun e => (p, e)))) := by
  unfold pendingReviews
  rw [if_neg]
  simpa [List.isEmpty_iff] using h

/-- C9: with both parameters present, the pending-reviews result contains
exactly the reviewer's unreviewed ballots whose referenced event exists
and belongs to the supplied group, each paired with its event; a ballot
whose event is missing (or outside the group) is silently dropped rather
than erroring; and a reviewer with no unreviewed ballots gets an empty
list, not an error.  (Event ids are assumed unique, as for store-generated
keys, so that "its event" is well defined.) -/
theorem pending_reviews_join_correct (s : State) (gid uid : String)
    (hids : (s.events.map (fun e => e.event_id)).Nodup) :
    ∃ l, pendingReviews s gid uid = .ok l ∧
      (∀ b e, (b, e) ∈ l ↔
        (b ∈ s.pending ∧ b.user_id_of_reviewer = uid ∧ b.reviewed = false ∧
         e ∈ s.events ∧ e.event_id = b.event_id ∧ e.group_name = gid)) ∧
      (s.pending.filter (fun x => x.user_id_of_reviewer == uid && !x.reviewed) = [] →
        pendingReviews s gid uid = .ok []) := by
  by_cases hemp : s.pending.filter (fun b => b.user_id_of_reviewer == uid && !b.reviewed) = []
  · refine ⟨[], pendingReviews_of_no_pending s gid uid hemp, ?_, fun _ =>
      pendingReviews_of_no_pending s gid uid hemp⟩
    intro b e
    simp only [List.not_mem_nil, false_iff]
    rintro ⟨hb, hu, hr, -⟩
    have : b ∈ s.pending.filter (fun x => x.user_id_of_reviewer == uid && !x.reviewed) :=
      List.mem_filter.mpr ⟨hb, by simp [hu, hr]⟩
    rw [hemp] at this
    cases this
  · refine ⟨_, pendingReviews_of_pending s gid uid hemp, ?_, fun h => absurd h hemp⟩
    intro b e
    constructor
    · intro hmem
      obtain ⟨p, hp, hf⟩ := List.mem_filterMap.mp hmem
      obtain ⟨e2, hfind, heq⟩ := Option.map_eq_some'.mp hf
      obtain ⟨rfl, rfl⟩ := Prod.mk.injEq .. ▸ heq
      have hppd := List.mem_filter.mp hp
      have hbprops := hppd.2
      have hein := List.mem_of_find?_eq_some hfind
      have hepred := List.find?_some hfind
      have heprops := List.mem_filter.mp hein
      refine ⟨hppd.1, ?_, ?_, heprops.1, by simpa using hepred, ?_⟩
      · have := (Bool.and_eq_true _ _).mp hbprops
        simpa using this.1
      · have := (Bool.and_eq_true _ _).mp hbprops
        simpa using this.2
      · have := (Bool.and_eq_true _ _).mp heprops.2
        simpa using this.2
    · rintro ⟨hb, huid, hrev, he, hid, hgrp⟩
      have hbpd : b ∈ s.pending.filter (fun x => x.user_id_of_reviewer == uid && !x.reviewed) :=
        List.mem_filter.mpr ⟨hb, by simp [huid, hrev]⟩
      have hcont : ((s.pending.filter
          (fun x => x.user_id_of_reviewer == uid && !x.reviewed)).map
            (fun x => x.event_id)).contains e.event_id = true := by
        have hmem2 : e.event_id ∈ (s.pending.filter
            (fun x => x.user_id_of_reviewer == uid && !x.reviewed)).map
              (fun x => x.event_id) := by
          rw [hid]
          exact List.mem_map_of_mem _ hbpd
        exact List.elem_iff.mpr hmem2
      have hgrpb : (e.group_name == gid) = true := by simp [hgrp]
      have heed : e ∈ s.events.filter (fun x =>
          ((s.pending.filter (fun y => y.user_id_of_reviewer == uid && !y.reviewed)).map
              (fun y => y.event_id)).contains x.event_id && x.group_name == gid) :=
        List.mem_filter.mpr ⟨he, by rw [hcont, hgrpb]; rfl⟩
      have hsome : ((s.events.filter (fun x =>
          ((s.pending.filter (fun y => y.user_id_of_reviewer == uid && !y.reviewed)).map
              (fun y => y.event_id)).contains x.event_id && x.group_name == gid)).find?
            (fun x => x.event_id == b.event_id)).isSome = true :=
        List.find?_isSome.mpr ⟨e, heed, by simp [hid]⟩
      obtain ⟨e2, hfind⟩ := Option.isSome_iff_exists.mp hsome
      have he2in := List.mem_of_find?_eq_some hfind
      have he2pred := List.find?_some hfind
      have he2events : e2 ∈ s.events := (List.mem_filter.mp he2in).1
      have he2id : e2.event_id = e.event_id := by
        have : e2.event_id = b.event_id := by simpa using he2pred
        rw [this, hid]
      have he2e : e2 = e := List.inj_on_of_nodup_map hids he2events he he2id
      refine List.mem_filterMap.mpr ⟨b, hbpd, ?_⟩
      rw [hfind, he2e]
      rfl

theorem pending_reviews_join_witness :
    ∃ l, pendingReviews sDemo "g1" "u1" = .ok l ∧
      (∀ b e, (b, e) ∈ l ↔
        (b ∈ sDemo.pending ∧ b.user_id_of_reviewer = "u1" ∧ b.reviewed = false ∧
         e ∈ sDemo.events ∧ e.event_id = b.event_id ∧ e.group_name = "g1")) ∧
      (sDemo.pending.filter (fun x => x.user_id_of_reviewer == "u1" && !x.reviewed) = [] →
        pendingReviews sDemo "g1" "u1" = .ok []) :=
  pending_reviews_join_correct sDemo "g1" "u1" (by decide)

/-! ## Claim C7: lemmas on the totals accumulation -/

theorem lk_nil (n : String) : lk [] n = none := rfl

theorem lk_cons (k : String) (t : Int) (rest : List (String × Int)) (n : String) :
    lk ((k, t) :: rest) n = if k = n then some t else lk rest n := by
  unfold lk
  by_cases h : k = n
  · rw [List.find?_cons_of_pos _ (by simpa using h), if_pos h]
    rfl
  · rw [List.find?_cons_of_neg _ (by simpa using h), if_neg h]

theorem lk_addTotal (xs : List (String × Int)) (m : String) (pts : Option Int) (n : String) :
    lk (addTotal xs m pts) n =
      if n = m then some ((lk xs n).getD 0 + pts.getD 0) else lk xs n := by
  induction xs with
  | nil =>
    unfold addTotal
    by_cases h : n = m
    · rw [if_pos h, lk_cons, if_pos h.symm, lk_nil]
      rfl
    · rw [if_neg h, lk_cons, if_neg (fun hmn => h hmn.symm), lk_nil]
  | cons p rest ih =>
    obtain ⟨k, t⟩ := p
    unfold addTotal
    by_cases hk : k = m
    · rw [if_pos hk]
      by_cases hn : n = m
      · have hkn : k = n := hk.trans hn.symm
        rw [lk_cons, if_pos hkn, if_pos hn, lk_cons, if_pos hkn]
        rfl
      · have hkn : ¬k = n := fun h => hn (h.symm.trans hk)
        rw [lk_cons, if_neg hkn, if_neg hn, lk_cons, if_neg hkn]
    · rw [if_neg hk]
      by_cases hkn : k = n
      · have hnm : ¬n = m := fun h => hk (hkn.trans h)
        rw [lk_cons, if_pos hkn, if_neg hnm, lk_cons, if_pos hkn]
      · rw [lk_cons, if_neg hkn, ih, lk_cons, if_neg hkn]

theorem foldl_add_shift (l : List Event) (a : Int) :
    l.foldl (fun t e => t + e.aura_points.getD 0) a =
      a + l.foldl (fun t e => t + e.aura_points.getD 0) 0 := by
  induction l generalizing a with
  | nil => simp
  | cons e rest ih =>
    rw [List.foldl_cons, List.foldl_cons, ih (a + e.aura_points.getD 0),
      ih (0 + e.aura_points.getD 0)]
    omega

theorem totalFor_nil (n : String) : totalFor [] n = 0 := rfl

theorem totalFor_cons (e : Event) (l : List Event) (n : String) :
    totalFor (e :: l) n =
      (if e.name = n then e.aura_points.getD 0 else 0) + totalFor l n := by
  unfold totalFor
  by_cases h : e.name = n
  · rw [List.filter_cons_of_pos (by simpa using h), if_pos h, List.foldl_cons,
      foldl_add_shift]
    omega
  · rw [List.filter_cons_of_neg (by simpa using h), if_neg h]
    omega

theorem lk_foldl_addTotal (l : List Event) (acc : List (String × Int)) (n : String) :
    lk (l.foldl (fun a e => addTotal a e.name e.aura_points) acc) n =
      if (lk acc n).isSome ∨ l.any (fun e => e.name == n) then
        some ((lk acc n).getD 0 + totalFor l n) else none := by
  induction l generalizing acc with
  | nil =>
    rw [List.foldl_nil, List.any_nil, totalFor_nil]
    cases h : lk acc n with
    | none => simp [h]
    | some v => simp [h]
  | cons e rest ih =>
    rw [List.foldl_cons, ih, lk_addTotal, List.any_cons, totalFor_cons]
    by_cases hen : e.name = n
    · have hne : n = e.name := hen.symm
      rw [if_pos hne, if_pos hen]
      have hbeq : (e.name == n) = true := by simpa using hen
      rw [hbeq]
      simp only [Option.isSome_some, true_or, Bool.true_or, if_pos]
      cases h : lk acc n with
      | none => simp [h]
      | some v => simp [h]; omega
    · have hne : ¬n = e.name := fun h => hen h.symm
      rw [if_neg hne, if_neg hen]
      have hbeq : (e.name == n) = false := by simpa using hen
      rw [hbeq]
      simp only [Bool.false_or]
      cases h : lk acc n with
      | none => simp [h]
      | some v => simp [h]

/-- The keys of the accumulated totals, in first-insertion order. -/
theorem addTotal_keys (xs : List (String × Int)) (m : String) (pts : Option Int) :
    (addTotal xs m pts).map Prod.fst =
      if xs.any (fun p => p.1 == m) then xs.map Prod.fst else xs.map Prod.fst ++ [m] := by
  induction xs with
  | nil => rfl
  | cons p rest ih =>
    obtain ⟨k, t⟩ := p
    unfold addTotal
    by_cases hk : k = m
    · have hbeq : (k == m) = true := by simpa using hk
      rw [if_pos hk]
      simp [List.any_cons, hbeq]
    · have hbeq : (k == m) = false := by simpa using hk
      rw [if_neg hk]
      simp only [List.map_cons, List.any_cons, hbeq, Bool.false_or, ih]
      by_cases ha : rest.any (fun p => p.1 == m)
      · rw [if_pos ha, if_pos ha]
      · rw [if_neg ha, if_neg ha]
        rfl

theorem addTotal_keys_nodup (xs : List (String × Int)) (m : String) (pts : Option Int)
    (h : ((xs.map Prod.fst).Nodup)) : ((addTotal xs m pts).map Prod.fst).Nodup := by
  rw [addTotal_keys]
  by_cases ha : xs.any (fun p => p.1 == m)
  · rwa [if_pos ha]
  · rw [if_neg ha]
    have hm : m ∉ xs.map Prod.fst := by
      intro hmem
      obtain ⟨p, hp, hpm⟩ := List.mem_map.mp hmem
      rw [List.any_eq_true] at ha
      exact ha ⟨p, hp, by simpa using hpm⟩
    simp [List.nodup_append, h, hm]

theorem foldl_addTotal_keys_nodup (l : List Event) (acc : List (String × Int))
    (h : (acc.map Prod.fst).Nodup) :
    ((l.foldl (fun a e => addTotal a e.name e.aura_points) acc).map Prod.fst).Nodup := by
  induction l generalizing acc with
  | nil => exact h
  | cons e rest ih =>
    rw [List.foldl_cons]
    exact ih _ (addTotal_keys_nodup acc e.name e.aura_points h)

theorem lk_of_mem_of_nodup (xs : List (String × Int)) (p : String × Int)
    (hp : p ∈ xs) (hnd : (xs.map Prod.fst).Nodup) : lk xs p.1 = some p.2 := by
  induction xs with
  | nil => cases hp
  | cons q rest ih =>
    obtain ⟨k, t⟩ := q
    rcases List.mem_cons.mp hp with h | h
    · rw [h, lk_cons, if_pos rfl]
    · have hk : ¬k = p.1 := by
        intro hkp
        have h1 : k ∉ rest.map Prod.fst := (List.nodup_cons.mp (by simpa using hnd)).1
        exact h1 (hkp ▸ List.mem_map.mpr ⟨p, h, rfl⟩)
      rw [lk_cons, if_neg hk]
      exact ih h (List.nodup_cons.mp (by simpa using hnd)).2

/-- Every entry of the accumulated totals carries exactly the sum of the
points of the events naming it. -/
theorem accumTotals_total (l : List Event) (p : String × Int)
    (hp : p ∈ accumTotals l) : p.2 = totalFor l p.1 := by
  have h1 : lk (accumTotals l) p.1 = some p.2 :=
    lk_of_mem_of_nodup _ p hp (foldl_addTotal_keys_nodup l [] (by simp))
  have h2 := lk_foldl_addTotal l [] p.1
  unfold accumTotals at h1
  rw [h1, lk_nil] at h2
  by_cases ha : l.any (fun e => e.name == p.1)
  · rw [if_pos (Or.inr ha)] at h2
    simpa using Option.some.inj h2
  · rw [if_neg (by simp [ha])] at h2
    simp at h2

/-- C7: the leaderboard mutates nothing, returns at most 5 entries, each
entry's total is the integer sum of the points of exactly the approved
events naming that nominee in the group (pending events are filtered out
and contribute zero), the entries are sorted descending by total, ties
keep their accumulation order (stable sort), and a group with no approved
events yields the empty list. -/
theorem leaderboard_correct (s : State) (gid : String) :
    (dashboardResults s gid).snd = s ∧
    (dashboardResults s gid).fst.length ≤ 5 ∧
    (∀ p ∈ (dashboardResults s gid).fst, p.2 = totalFor (approvedEventsOf s gid) p.1) ∧
    List.Sorted lbRel (dashboardResults s gid).fst ∧
    (∀ a b : String × Int, a.2 = b.2 →
      [a, b].Sublist (accumTotals (approvedEventsOf s gid)) →
      [a, b].Sublist (List.insertionSort lbRel (accumTotals (approvedEventsOf s gid)))) ∧
    (approvedEventsOf s gid = [] → (dashboardResults s gid).fst = []) := by
  refine ⟨rfl, ?_, ?_, ?_, ?_, ?_⟩
  · exact List.length_take_le 5 _
  · intro p hp
    have h1 : p ∈ List.insertionSort lbRel (accumTotals (approvedEventsOf s gid)) :=
      List.take_subset 5 _ hp
    have h2 : p ∈ accumTotals (approvedEventsOf s gid) :=
      (List.mem_insertionSort lbRel).mp h1
    exact accumTotals_total _ p h2
  · exact List.Pairwise.sublist (List.take_sublist 5 _)
      (List.sorted_insertionSort lbRel (accumTotals (approvedEventsOf s gid)))
  · intro a b hab hsub
    exact List.pair_sublist_insertionSort (le_of_eq hab.symm) hsub
  · intro h
    unfold dashboardResults
    rw [h]
    rfl

theorem leaderboard_correct_witness :
    (dashboardResults sDemo "g1").snd = sDemo ∧
    (dashboardResults sDemo "g1").fst.length ≤ 5 ∧
    (∀ p ∈ (dashboardResults sDemo "g1").fst,
      p.2 = totalFor (approvedEventsOf sDemo "g1") p.1) ∧
    List.Sorted lbRel (dashboardResults sDemo "g1").fst ∧
    (∀ a b : String × Int, a.2 = b.2 →
      [a, b].Sublist (accumTotals (approvedEventsOf sDemo "g1")) →
      [a, b].Sublist (List.insertionSort lbRel (accumTotals (approvedEventsOf sDemo "g1")))) ∧
    (approvedEventsOf sDemo "g1" = [] → (dashboardResults sDemo "g1").fst = []) :=
  leaderboard_correct sDemo "g1"

end AuraBase
